import Mathlib

/-!
Shallow embedding of `src/main.rs` of the `rusty_6502` emulator core.

Machine integers are modelled as `Nat` with explicit reductions:
a `u8` value or computation is reduced `% 256`, a `u16` one `% 65536`,
at exactly the places where the Rust types impose the reduction.
Unsigned overflow/underflow follows the wrapping behaviour of the
compiled arithmetic (`c - k` on `u8` becomes `(c + (256 - k)) % 256`);
the stdout diagnostic of the unknown-opcode branch is modelled as an
explicit log of the reported opcode values.
-/

namespace Rusty6502

/-- Model of the constant `MAX_MEM`: the fixed memory capacity. -/
def MAX_MEM : Nat := 1024 * 64

/-- Model of `struct Memory { data: [u8; MAX_MEM] }`.  The array is a
function from indices to byte values; only indices below `MAX_MEM`
are ever accessed by the checked accessors. -/
structure Memory where
  data : Nat → Nat

/-- Model of `Index<u16> for Memory` (`&self.data[index as usize]`) with
the slice bounds check made explicit: `none` models the out-of-bounds
panic.  The `% 256` reflects that the stored cells are `u8`. -/
def Memory.read (m : Memory) (index : Nat) : Option Nat :=
  if index < MAX_MEM then some (m.data index % 256) else none

/-- Model of `IndexMut<u16> for Memory` followed by a byte store, with the
bounds check explicit. -/
def Memory.write (m : Memory) (index v : Nat) : Option Memory :=
  if index < MAX_MEM then some ⟨fun i => if i = index then v % 256 else m.data i⟩ else none

/-- Total byte read as the engine uses it: the argument is a `u16`
(hence the `% 65536`), and since `MAX_MEM = 65536` the bounds check of
`Memory.read` always passes (proved below), so the access is total. -/
def Memory.readByte (m : Memory) (addr : Nat) : Nat :=
  m.data (addr % 65536) % 256

/-- Total byte write as the engine uses it (`memory[addr] = v` with
`addr : u16`, `v : u8`). -/
def Memory.writeByte (m : Memory) (addr v : Nat) : Memory :=
  ⟨fun i => if i = addr % 65536 then v % 256 else m.data i⟩

/-- Model of `Memory::initialize`: `self.data = [0; MAX_MEM]`. -/
def Memory.initialize (_m : Memory) : Memory := ⟨fun _ => 0⟩

/-- Wrapping `u8` subtraction: `c - k` compiled without overflow checks.
Meaningful for `k ≤ 256`; every use below has a literal `k ≤ 2`. -/
def dec8 (c k : Nat) : Nat := (c + (256 - k)) % 256

/-- Model of `Memory::write_word`: store the low byte (`data & 0xFF`) at
`addr`, the high byte (`(data >> 8) as u8`) at `addr + 1` (a `u16`
addition, hence `% 65536`), then `*cycles -= 2`.  Returns the updated
memory together with the updated cycle counter. -/
def Memory.write_word (m : Memory) (cycles data addr : Nat) : Memory × Nat :=
  let m1 := m.writeByte addr (data &&& 0xFF)
  let m2 := m1.writeByte ((addr + 1) % 65536) ((data >>> 8) % 256)
  (m2, dec8 cycles 2)

/-- Model of `PS::Z` (Zero flag bit). -/
def PS.Z : Nat := 0b00000010

/-- Model of `PS::N` (Negative flag bit). -/
def PS.N : Nat := 0b10000000

/-- Model of `INS::LDA_IM`. -/
def INS.LDA_IM : Nat := 0xA9

/-- Model of `INS::LDA_ZP`. -/
def INS.LDA_ZP : Nat := 0xA5

/-- Model of `INS::LDA_ZPX`. -/
def INS.LDA_ZPX : Nat := 0xB5

/-- Model of `INS::JSR_ABS`. -/
def INS.JSR_ABS : Nat := 0x20

/-- Model of `struct CPU`: the register file.  `pc` and `sp` are `u16`
values, the rest are `u8` values. -/
structure CPU where
  pc : Nat
  sp : Nat
  a : Nat
  x : Nat
  y : Nat
  ps : Nat

/-- Model of `CPU::reset`: fixed register values, then `memory.initialize()`. -/
def CPU.reset (_cpu : CPU) (memory : Memory) : CPU × Memory :=
  (⟨0xFFFC, 0x0100, 0, 0, 0, 0⟩, memory.initialize)

/-- Model of `CPU::fetch_byte`: read at `pc`, `pc += 1` (`u16`),
`*cycles -= 1`.  Returns (data, updated cpu, updated cycles). -/
def CPU.fetch_byte (cpu : CPU) (cycles : Nat) (memory : Memory) : Nat × CPU × Nat :=
  (memory.readByte cpu.pc, { cpu with pc := (cpu.pc + 1) % 65536 }, dec8 cycles 1)

/-- Model of `CPU::fetch_word`: little-endian 16-bit fetch, `pc += 2`,
`*cycles -= 2`. -/
def CPU.fetch_word (cpu : CPU) (cycles : Nat) (memory : Memory) : Nat × CPU × Nat :=
  let lo := memory.readByte cpu.pc
  let pc1 := (cpu.pc + 1) % 65536
  let hi := memory.readByte pc1
  let data := lo ||| (hi <<< 8)
  (data, { cpu with pc := (pc1 + 1) % 65536 }, dec8 cycles 2)

/-- Model of `CPU::read_byte`: read at `addr as u16` where `addr : u8`
(hence the `% 256`), `*cycles -= 1`; the program counter is not moved.
Returns (data, updated cycles). -/
def CPU.read_byte (_cpu : CPU) (cycles : Nat) (memory : Memory) (addr : Nat) : Nat × Nat :=
  (memory.readByte (addr % 256), dec8 cycles 1)

/-- Model of `CPU::lda_set_status`: OR `PS::Z` into the status byte when
the accumulator is zero, OR `PS::N` when bit 7 of the accumulator is set. -/
def CPU.lda_set_status (cpu : CPU) : CPU :=
  let ps1 := if cpu.a = 0 then cpu.ps ||| PS.Z else cpu.ps
  let ps2 := if cpu.a &&& 0b10000000 > 0 then ps1 ||| PS.N else ps1
  { cpu with ps := ps2 }

/-- State threaded through the `execute` loop: registers, memory, the
remaining cycle counter (a `u8` value) and the log of opcode values
reported by the unknown-opcode diagnostic. -/
structure ExecState where
  cpu : CPU
  mem : Memory
  cycles : Nat
  log : List Nat

/-- Model of one iteration body of the `while cycles > 0` loop of
`CPU::execute`: fetch an opcode byte and dispatch on it. -/
def CPU.execStep (s : ExecState) : ExecState :=
  let f := s.cpu.fetch_byte s.cycles s.mem
  let opcode := f.1
  let cpu1 := f.2.1
  let c1 := f.2.2
  if opcode = INS.LDA_IM then
    let g := cpu1.fetch_byte c1 s.mem
    ⟨CPU.lda_set_status { g.2.1 with a := g.1 }, s.mem, g.2.2, s.log⟩
  else if opcode = INS.LDA_ZP then
    let g := cpu1.fetch_byte c1 s.mem
    let r := g.2.1.read_byte g.2.2 s.mem g.1
    ⟨CPU.lda_set_status { g.2.1 with a := r.1 }, s.mem, r.2, s.log⟩
  else if opcode = INS.LDA_ZPX then
    let g := cpu1.fetch_byte c1 s.mem
    let zp_addr := (g.1 + g.2.1.x) % 256
    let c2 := dec8 g.2.2 1
    let r := g.2.1.read_byte c2 s.mem zp_addr
    ⟨CPU.lda_set_status { g.2.1 with a := r.1 }, s.mem, r.2, s.log⟩
  else if opcode = INS.JSR_ABS then
    let g := cpu1.fetch_word c1 s.mem
    let w := s.mem.write_word g.2.2 ((g.2.1.pc + 65535) % 65536) g.2.1.sp
    ⟨{ g.2.1 with sp := (g.2.1.sp + 2) % 65536, pc := g.1 }, w.1, dec8 w.2 1, s.log⟩
  else
    ⟨cpu1, s.mem, c1, s.log ++ [opcode]⟩

/-- One guarded iteration of the `while cycles > 0` loop: step only when
the remaining cycle counter is positive. -/
def CPU.loopIter (s : ExecState) : ExecState :=
  if 0 < s.cycles then CPU.execStep s else s

/-- Model of `CPU::execute` observed for `n` loop iterations: iterate the
guarded loop body `n` times (once the counter reaches zero further
iterations are the identity, i.e. the loop has exited). -/
def CPU.execute (n : Nat) (s : ExecState) : ExecState :=
  (CPU.loopIter)^[n] s

/-! ### Shared helper lemmas -/

/-- Masking with `0xFF` is reduction mod 256. -/
lemma and_255_eq_mod (x : Nat) : x &&& 0xFF = x % 256 := by
  simpa using Nat.and_pow_two_sub_one_eq_mod x 8

/-- Shifting right by 8 is division by 256. -/
lemma shiftRight_8_eq_div (x : Nat) : x >>> 8 = x / 256 := by
  simpa using Nat.shiftRight_eq_div_pow x 8

/-- Reading back the cell a `writeByte` targeted. -/
lemma readByte_writeByte_eq (m : Memory) (a b v : Nat) (h : b % 65536 = a % 65536) :
    (m.writeByte a v).readByte b = v % 256 := by
  simp [Memory.writeByte, Memory.readByte, h]

/-- Reading a cell a `writeByte` did not target. -/
lemma readByte_writeByte_ne (m : Memory) (a b v : Nat) (h : b % 65536 ≠ a % 65536) :
    (m.writeByte a v).readByte b = m.readByte b := by
  simp [Memory.writeByte, Memory.readByte, h]

/-- Every byte the engine reads is below 256. -/
lemma readByte_lt (m : Memory) (a : Nat) : m.readByte a < 256 :=
  Nat.mod_lt _ (by omega)

/-! ### Concrete inputs used by witnesses and counterexamples -/

/-- All-zero register file. -/
def cpu0 : CPU := ⟨0, 0, 0, 0, 0, 0⟩

/-- All-zero memory image. -/
def mem0 : Memory := ⟨fun _ => 0⟩

/-- Memory image holding `LDA #$01` at address 0. -/
def memIM : Memory := ⟨fun i => if i = 0 then 0xA9 else if i = 1 then 0x01 else 0⟩

/-- Machine about to run `LDA #$01` with a cycle budget of 1: the opcode
fetch spends the whole budget and the operand fetch underflows it. -/
def sUnderflow : ExecState := ⟨cpu0, memIM, 1, []⟩

/-- Machine about to run `LDA #$01` with the Zero flag already set. -/
def sStickyZ : ExecState := ⟨⟨0, 0, 0, 0, 0, 0b10⟩, memIM, 2, []⟩

/-! ### C4 — reset establishes the canonical state -/

/-- C4: after any `reset`, the program counter is 0xFFFC, the stack
pointer is 0x0100, the accumulator, X, Y and the status byte are zero,
and every one of the 65536 memory cells reads as zero. -/
theorem reset_canonical_state (cpu : CPU) (m : Memory) :
    (cpu.reset m).1.pc = 0xFFFC ∧ (cpu.reset m).1.sp = 0x0100 ∧
    (cpu.reset m).1.a = 0 ∧ (cpu.reset m).1.x = 0 ∧ (cpu.reset m).1.y = 0 ∧
    (cpu.reset m).1.ps = 0 ∧ ∀ a : Nat, a < 65536 → (cpu.reset m).2.readByte a = 0 :=
  ⟨rfl, rfl, rfl, rfl, rfl, rfl, fun _ _ => rfl⟩

/-- Witness for C4 at a concrete prior state and a concrete memory cell. -/
theorem reset_canonical_state_witness :
    (cpu0.reset memIM).1.pc = 0xFFFC ∧ 0x1234 < 65536 ∧
    (cpu0.reset memIM).2.readByte 0x1234 = 0 :=
  ⟨(reset_canonical_state cpu0 memIM).1, by decide,
    (reset_canonical_state cpu0 memIM).2.2.2.2.2.2 0x1234 (by decide)⟩

/-! ### C9 — memory capacity covers the whole u16 range -/

/-- C9: the capacity is exactly 65536 so every `u16`-indexed single-byte
read and write passes the bounds check (and the checked read agrees with
the total read the engine uses); the only address computation that can
leave the `u16` range is `write_word`'s `addr + 1`, precisely when
`addr = 0xFFFF`. -/
theorem memory_access_in_bounds :
    MAX_MEM = 65536 ∧
    (∀ (m : Memory) (a : Nat), a < 65536 → m.read a = some (m.readByte a)) ∧
    (∀ (m : Memory) (a v : Nat), a < 65536 → (m.write a v).isSome = true) ∧
    (∀ a : Nat, a < 65536 → (65536 ≤ a + 1 ↔ a = 0xFFFF)) := by
  refine ⟨rfl, ?_, ?_, ?_⟩
  · intro m a ha
    have h : a < MAX_MEM := by simpa [MAX_MEM] using ha
    have h2 : a % 65536 = a := Nat.mod_eq_of_lt ha
    simp [Memory.read, Memory.readByte, h, h2]
  · intro m a v ha
    have h : a < MAX_MEM := by simpa [MAX_MEM] using ha
    simp [Memory.write, h]
  · intro a _; omega

/-- Witness for C9 at a concrete memory and address. -/
theorem memory_access_in_bounds_witness :
    memIM.read 0x42 = some (memIM.readByte 0x42) ∧ (mem0.write 0x42 7).isSome = true :=
  ⟨memory_access_in_bounds.2.1 memIM 0x42 (by decide),
    memory_access_in_bounds.2.2.1 mem0 0x42 7 (by decide)⟩

/-! ### C2 — the cycle budget does wrap on underflow (code bug) -/

/-- C2 (refutation of the no-wrap claim, demonstrating the bug): running
`execute` with budget 1 on a memory whose next opcode is the 2-cycle
`LDA_IM` drives the `u8` cycle counter from 0 through a wrapping
decrement to 255. -/
theorem cycle_budget_wraps_on_underflow : (CPU.execStep sUnderflow).cycles = 255 := by decide

/-! ### C1 — load flags are OR-ed, never cleared -/

/-- Counterexample to C1 as stated: with the Zero flag already set
before the instruction, `LDA #$01` loads the nonzero value 1 yet leaves
the Zero flag set, so "Zero flag set iff loaded value is 0" fails. -/
theorem lda_zero_flag_sticky :
    (CPU.execStep sStickyZ).cpu.a = 1 ∧
    (CPU.execStep sStickyZ).cpu.ps.testBit 1 = true ∧
    sStickyZ.cpu.ps.testBit 1 = true := by decide

/-! ### Status-flag bit lemmas -/

/-- The `a & 0b10000000 > 0` test of `lda_set_status` is exactly bit 7. -/
lemma and_128_pos_iff (a : Nat) : 0 < a &&& 0b10000000 ↔ a.testBit 7 = true := by
  have h := Nat.and_two_pow a 7
  norm_num at h
  rw [h]
  cases hb : a.testBit 7 <;> simp

lemma testBit_Z_1 : PS.Z.testBit 1 = true := by decide

lemma testBit_Z_7 : PS.Z.testBit 7 = false := by decide

lemma testBit_N_1 : PS.N.testBit 1 = false := by decide

lemma testBit_N_7 : PS.N.testBit 7 = true := by decide

lemma testBit_Z_of_ne {i : Nat} (h : i ≠ 1) : PS.Z.testBit i = false := by
  have hz : PS.Z = 2 ^ 1 := rfl
  rw [hz]
  exact Nat.testBit_two_pow_of_ne fun h1 => h h1.symm

lemma testBit_N_of_ne {i : Nat} (h : i ≠ 7) : PS.N.testBit i = false := by
  have hn : PS.N = 2 ^ 7 := rfl
  rw [hn]
  exact Nat.testBit_two_pow_of_ne fun h1 => h h1.symm

/-- `lda_set_status` leaves the accumulator unchanged. -/
lemma lda_set_status_a (cpu : CPU) : (cpu.lda_set_status).a = cpu.a := rfl

/-- After `lda_set_status`, the Zero bit is the old Zero bit OR-ed with
the zero test of the accumulator. -/
lemma lda_set_status_testBit1 (cpu : CPU) :
    (cpu.lda_set_status).ps.testBit 1 = ((cpu.a == 0) || cpu.ps.testBit 1) := by
  simp only [CPU.lda_set_status]
  by_cases ha : cpu.a = 0 <;> by_cases hn : cpu.a &&& 0b10000000 > 0 <;>
    simp [ha, hn, Nat.testBit_or, testBit_Z_1, testBit_N_1]

/-- After `lda_set_status`, the Negative bit is the old Negative bit
OR-ed with bit 7 of the accumulator. -/
lemma lda_set_status_testBit7 (cpu : CPU) :
    (cpu.lda_set_status).ps.testBit 7 = (cpu.a.testBit 7 || cpu.ps.testBit 7) := by
  simp only [CPU.lda_set_status, gt_iff_lt, and_128_pos_iff]
  by_cases ha : cpu.a = 0 <;> cases hb : cpu.a.testBit 7 <;>
    simp [ha, hb, Nat.testBit_or, testBit_Z_7, testBit_N_7]

/-- `lda_set_status` touches no status bit other than 1 (Zero) and 7
(Negative). -/
lemma lda_set_status_testBit_other {cpu : CPU} {i : Nat} (h1 : i ≠ 1) (h7 : i ≠ 7) :
    (cpu.lda_set_status).ps.testBit i = cpu.ps.testBit i := by
  simp only [CPU.lda_set_status]
  by_cases ha : cpu.a = 0 <;> by_cases hn : cpu.a &&& 0b10000000 > 0 <;>
    simp [ha, hn, Nat.testBit_or, testBit_Z_of_ne h1, testBit_N_of_ne h7]

/-- Machine about to run `LDA #$01` with an all-clear status byte. -/
def sIM2 : ExecState := ⟨cpu0, memIM, 2, []⟩

/-- C1 (amended): after any of the three load instructions the Zero flag
is the OR of its previous value with the zero test of the loaded value,
the Negative flag is the OR of its previous value with bit 7 of the
loaded value, and every other status bit is unchanged. -/
theorem lda_status_or_semantics (s : ExecState)
    (h : s.mem.readByte s.cpu.pc = INS.LDA_IM ∨ s.mem.readByte s.cpu.pc = INS.LDA_ZP ∨
         s.mem.readByte s.cpu.pc = INS.LDA_ZPX) :
    ((CPU.execStep s).cpu.ps.testBit 1 = (((CPU.execStep s).cpu.a == 0) || s.cpu.ps.testBit 1)) ∧
    ((CPU.execStep s).cpu.ps.testBit 7 =
      ((CPU.execStep s).cpu.a.testBit 7 || s.cpu.ps.testBit 7)) ∧
    (∀ i : Nat, i ≠ 1 → i ≠ 7 →
      (CPU.execStep s).cpu.ps.testBit i = s.cpu.ps.testBit i) := by
  refine ⟨?_, ?_, ?_⟩
  · rcases h with h | h | h <;>
      simp [CPU.execStep, CPU.fetch_byte, CPU.read_byte, h, INS.LDA_IM, INS.LDA_ZP,
        INS.LDA_ZPX, INS.JSR_ABS, lda_set_status_testBit1, lda_set_status_a]
  · rcases h with h | h | h <;>
      simp [CPU.execStep, CPU.fetch_byte, CPU.read_byte, h, INS.LDA_IM, INS.LDA_ZP,
        INS.LDA_ZPX, INS.JSR_ABS, lda_set_status_testBit7, lda_set_status_a]
  · intro i h1 h7
    rcases h with h | h | h <;>
      simp [CPU.execStep, CPU.fetch_byte, CPU.read_byte, h, INS.LDA_IM, INS.LDA_ZP,
        INS.LDA_ZPX, INS.JSR_ABS, lda_set_status_testBit_other h1 h7]

/-- Witness for C1 (amended) on a concrete immediate load. -/
theorem lda_status_or_semantics_witness :
    ((CPU.execStep sIM2).cpu.ps.testBit 1 =
      (((CPU.execStep sIM2).cpu.a == 0) || sIM2.cpu.ps.testBit 1)) ∧
    ((CPU.execStep sIM2).cpu.ps.testBit 0 = sIM2.cpu.ps.testBit 0) :=
  ⟨(lda_status_or_semantics sIM2 (Or.inl (by decide))).1,
    (lda_status_or_semantics sIM2 (Or.inl (by decide))).2.2 0 (by decide) (by decide)⟩

/-! ### Arithmetic normalization helpers -/

lemma mod256_idem (z : Nat) : z % 256 % 256 = z % 256 := by omega

lemma addr_norm1 (p : Nat) : ((p + 1) % 65536 + 1) % 65536 = (p + 2) % 65536 := by omega

lemma addr_norm2 (p : Nat) : ((p + 2) % 65536 + 1) % 65536 = (p + 3) % 65536 := by omega

lemma addr_norm_ret (p : Nat) : ((p + 3) % 65536 + 65535) % 65536 = (p + 2) % 65536 := by omega

/-- Byte read after a byte write, with the aliasing test explicit. -/
lemma readByte_writeByte (m : Memory) (a b v : Nat) :
    (m.writeByte a v).readByte b =
      if b % 65536 = a % 65536 then v % 256 else m.readByte b := by
  by_cases h : b % 65536 = a % 65536 <;> simp [Memory.writeByte, Memory.readByte, h]

/-! ### C5 — exact per-instruction cycle cost -/

/-- C5: within the `u8` budget range, one immediate load consumes exactly
2 cycles, one zero-page load exactly 3, one zero-page-X load exactly 4,
and one jump-to-subroutine exactly 6 — opcode fetch included — whenever
the starting budget covers the instruction. -/
theorem instruction_cycle_costs (s : ExecState) (hle : s.cycles ≤ 255) :
    (s.mem.readByte s.cpu.pc = INS.LDA_IM → 2 ≤ s.cycles →
      (CPU.execStep s).cycles = s.cycles - 2) ∧
    (s.mem.readByte s.cpu.pc = INS.LDA_ZP → 3 ≤ s.cycles →
      (CPU.execStep s).cycles = s.cycles - 3) ∧
    (s.mem.readByte s.cpu.pc = INS.LDA_ZPX → 4 ≤ s.cycles →
      (CPU.execStep s).cycles = s.cycles - 4) ∧
    (s.mem.readByte s.cpu.pc = INS.JSR_ABS → 6 ≤ s.cycles →
      (CPU.execStep s).cycles = s.cycles - 6) := by
  refine ⟨fun h hc => ?_, fun h hc => ?_, fun h hc => ?_, fun h hc => ?_⟩ <;>
    (simp [CPU.execStep, CPU.fetch_byte, CPU.read_byte, CPU.fetch_word, Memory.write_word,
       h, INS.LDA_IM, INS.LDA_ZP, INS.LDA_ZPX, INS.JSR_ABS, dec8]
     omega)

/-- Memory image holding `JSR $4242` at address 0. -/
def memJSR : Memory :=
  ⟨fun i => if i = 0 then 0x20 else if i = 1 then 0x42 else if i = 2 then 0x42 else 0⟩

/-- Machine about to run `JSR $4242` with a budget of 8. -/
def sJSR : ExecState := ⟨⟨0, 0x0100, 0, 0, 0, 0⟩, memJSR, 8, []⟩

/-- Witness for C5 on a concrete jump-to-subroutine. -/
theorem instruction_cycle_costs_witness :
    6 ≤ (8 : Nat) ∧ (CPU.execStep sJSR).cycles = 8 - 6 :=
  ⟨by decide, (instruction_cycle_costs sJSR (by decide)).2.2.2 (by decide) (by decide)⟩

/-! ### C8 — unknown opcode: 1 cycle, pc+1, diagnostic, nothing else -/

/-- C8: on a fetched opcode matching no implemented instruction, exactly
the fetch cycle is consumed, the program counter advances by one, every
other register, the status byte and the memory are untouched, and the
opcode value is appended to the diagnostic log; the loop is then back at
the fetch state. -/
theorem unknown_opcode_step (s : ExecState)
    (h1 : s.mem.readByte s.cpu.pc ≠ INS.LDA_IM)
    (h2 : s.mem.readByte s.cpu.pc ≠ INS.LDA_ZP)
    (h3 : s.mem.readByte s.cpu.pc ≠ INS.LDA_ZPX)
    (h4 : s.mem.readByte s.cpu.pc ≠ INS.JSR_ABS)
    (hc : 1 ≤ s.cycles) (hle : s.cycles ≤ 255) :
    (CPU.execStep s).cpu.pc = (s.cpu.pc + 1) % 65536 ∧
    (CPU.execStep s).cpu.sp = s.cpu.sp ∧
    (CPU.execStep s).cpu.a = s.cpu.a ∧
    (CPU.execStep s).cpu.x = s.cpu.x ∧
    (CPU.execStep s).cpu.y = s.cpu.y ∧
    (CPU.execStep s).cpu.ps = s.cpu.ps ∧
    (CPU.execStep s).mem = s.mem ∧
    (CPU.execStep s).cycles = s.cycles - 1 ∧
    (CPU.execStep s).log = s.log ++ [s.mem.readByte s.cpu.pc] := by
  have hstep : CPU.execStep s =
      ⟨{ s.cpu with pc := (s.cpu.pc + 1) % 65536 }, s.mem, dec8 s.cycles 1,
        s.log ++ [s.mem.readByte s.cpu.pc]⟩ := by
    simp [CPU.execStep, CPU.fetch_byte, h1, h2, h3, h4]
  rw [hstep]
  refine ⟨rfl, rfl, rfl, rfl, rfl, rfl, rfl, ?_, rfl⟩
  simp only [dec8]
  omega

/-- Machine whose next opcode byte is the unimplemented 0x00, budget 1. -/
def sUnk : ExecState := ⟨cpu0, mem0, 1, []⟩

/-- Witness for C8 on the concrete opcode 0x00. -/
theorem unknown_opcode_step_witness :
    (CPU.execStep sUnk).cpu.pc = (sUnk.cpu.pc + 1) % 65536 ∧
    (CPU.execStep sUnk).cycles = sUnk.cycles - 1 ∧
    (CPU.execStep sUnk).log = sUnk.log ++ [sUnk.mem.readByte sUnk.cpu.pc] :=
  ⟨(unknown_opcode_step sUnk (by decide) (by decide) (by decide) (by decide)
      (by decide) (by decide)).1,
   (unknown_opcode_step sUnk (by decide) (by decide) (by decide) (by decide)
      (by decide) (by decide)).2.2.2.2.2.2.2.1,
   (unknown_opcode_step sUnk (by decide) (by decide) (by decide) (by decide)
      (by decide) (by decide)).2.2.2.2.2.2.2.2⟩

/-! ### C10 — zero-page-X addressing wraps inside the zero page -/

/-- C10: the effective address of a zero-page-X load is the fetched
operand plus X reduced mod 256, so the value loaded comes from the zero
page — below 0x100 — even when operand + X exceeds 0xFF. -/
theorem lda_zpx_zero_page_wrap (s : ExecState)
    (h : s.mem.readByte s.cpu.pc = INS.LDA_ZPX) :
    (CPU.execStep s).cpu.a =
      s.mem.readByte ((s.mem.readByte ((s.cpu.pc + 1) % 65536) + s.cpu.x) % 256) ∧
    (s.mem.readByte ((s.cpu.pc + 1) % 65536) + s.cpu.x) % 256 < 256 := by
  constructor
  · simp [CPU.execStep, CPU.fetch_byte, CPU.read_byte, h, INS.LDA_IM, INS.LDA_ZP,
      INS.LDA_ZPX, lda_set_status_a, mod256_idem]
  · omega

/-- Memory image holding `LDA $80,X` at address 0 and the value 7 at the
wrapped effective address 0x10. -/
def memZPX : Memory :=
  ⟨fun i => if i = 0 then 0xB5 else if i = 1 then 0x80 else if i = 0x10 then 0x7 else 0⟩

/-- Machine about to run `LDA $80,X` with X = 0x90, so operand + X =
0x110 overflows a byte and wraps to 0x10. -/
def sZPX : ExecState := ⟨⟨0, 0, 0, 0x90, 0, 0⟩, memZPX, 4, []⟩

/-- Witness for C10 on a wrapping concrete input. -/
theorem lda_zpx_zero_page_wrap_witness :
    (CPU.execStep sZPX).cpu.a =
      sZPX.mem.readByte ((sZPX.mem.readByte ((sZPX.cpu.pc + 1) % 65536) + sZPX.cpu.x) % 256) :=
  (lda_zpx_zero_page_wrap sZPX (by decide)).1

/-! ### C7 — write_word layout and round-trip -/

/-- C7: `write_word` stores the low-order byte at `addr` and the
high-order byte at `addr + 1`, charges exactly 2 cycles, and reading the
two bytes back and recombining them little-endian reproduces the written
16-bit value. -/
theorem write_word_roundtrip (m : Memory) (cycles data addr : Nat)
    (haddr : addr + 1 ≤ 0xFFFF) (hdata : data < 65536)
    (hc : 2 ≤ cycles) (hle : cycles ≤ 255) :
    (m.write_word cycles data addr).1.readByte addr +
      256 * (m.write_word cycles data addr).1.readByte (addr + 1) = data ∧
    (m.write_word cycles data addr).1.readByte addr = data % 256 ∧
    (m.write_word cycles data addr).1.readByte (addr + 1) = data / 256 ∧
    (m.write_word cycles data addr).2 = cycles - 2 := by
  have hne : (addr % 65536 = (addr + 1) % 65536) = False := by
    simp only [eq_iff_iff, iff_false]
    omega
  have heq1 : ((addr + 1) % 65536 % 65536 = (addr + 1) % 65536 % 65536) = True := by simp
  have hlow : (m.write_word cycles data addr).1.readByte addr = data % 256 := by
    simp [Memory.write_word, readByte_writeByte, hne, and_255_eq_mod, mod256_idem]
  have hhigh : (m.write_word cycles data addr).1.readByte (addr + 1) = data / 256 := by
    simp [Memory.write_word, readByte_writeByte, shiftRight_8_eq_div, mod256_idem]
    omega
  refine ⟨?_, hlow, hhigh, ?_⟩
  · rw [hlow, hhigh]
    omega
  · simp [Memory.write_word, dec8]
    omega

/-- Witness for C7 on a concrete value and address. -/
theorem write_word_roundtrip_witness :
    (mem0.write_word 8 0x1234 0x200).1.readByte 0x200 +
      256 * (mem0.write_word 8 0x1234 0x200).1.readByte (0x200 + 1) = 0x1234 ∧
    (mem0.write_word 8 0x1234 0x200).2 = 8 - 2 :=
  ⟨(write_word_roundtrip mem0 8 0x1234 0x200 (by decide) (by decide) (by decide) (by decide)).1,
   (write_word_roundtrip mem0 8 0x1234 0x200 (by decide) (by decide) (by decide)
      (by decide)).2.2.2⟩

/-! ### C6 — jump-to-subroutine semantics -/

/-- C6: `JSR` fetches its little-endian 16-bit target from the two bytes
after the opcode and loads it into the program counter, writes the
return address — the program counter after the target fetch, minus one,
i.e. `pc + 2` mod 2^16 — as a little-endian word at the address held in
the stack pointer, and advances the stack pointer by 2 (as a `u16`). -/
theorem jsr_abs_semantics (s : ExecState)
    (h : s.mem.readByte s.cpu.pc = INS.JSR_ABS) :
    (CPU.execStep s).cpu.pc =
      (s.mem.readByte ((s.cpu.pc + 1) % 65536) |||
        (s.mem.readByte ((s.cpu.pc + 2) % 65536) <<< 8)) ∧
    (CPU.execStep s).cpu.sp = (s.cpu.sp + 2) % 65536 ∧
    (CPU.execStep s).mem.readByte s.cpu.sp = ((s.cpu.pc + 2) % 65536) % 256 ∧
    (CPU.execStep s).mem.readByte ((s.cpu.sp + 1) % 65536) =
      ((s.cpu.pc + 2) % 65536) / 256 := by
  have hne : (s.cpu.sp % 65536 = (s.cpu.sp + 1) % 65536) = False := by
    simp only [eq_iff_iff, iff_false]
    omega
  have hdiv : (s.cpu.pc + 2) % 65536 / 256 % 256 = (s.cpu.pc + 2) % 65536 / 256 := by
    omega
  refine ⟨?_, ?_, ?_, ?_⟩ <;>
    simp [CPU.execStep, CPU.fetch_byte, CPU.fetch_word, Memory.write_word, h,
      INS.LDA_IM, INS.LDA_ZP, INS.LDA_ZPX, INS.JSR_ABS, readByte_writeByte,
      addr_norm1, addr_norm2, addr_norm_ret, hne, and_255_eq_mod, mod256_idem,
      shiftRight_8_eq_div, hdiv]

/-- Witness for C6 on the concrete `JSR $4242`. -/
theorem jsr_abs_semantics_witness :
    (CPU.execStep sJSR).cpu.pc =
      (sJSR.mem.readByte ((sJSR.cpu.pc + 1) % 65536) |||
        (sJSR.mem.readByte ((sJSR.cpu.pc + 2) % 65536) <<< 8)) ∧
    (CPU.execStep sJSR).mem.readByte sJSR.cpu.sp = ((sJSR.cpu.pc + 2) % 65536) % 256 :=
  ⟨(jsr_abs_semantics sJSR (by decide)).1, (jsr_abs_semantics sJSR (by decide)).2.2.1⟩

/-! ### C3 — the execute loop can run forever (code bug) -/

/-- Memory image every cell of which holds the `LDA_IM` opcode. -/
def memA9 : Memory := ⟨fun _ => 0xA9⟩

/-- Machine started on `memA9` with cycle budget 1: the first instruction
underflows the budget to 255 and the loop never reaches 0 again. -/
def stateA9 : ExecState := ⟨⟨0xFFFC, 0x0100, 0, 0, 0, 0⟩, memA9, 1, []⟩

lemma readByte_memA9 (a : Nat) : memA9.readByte a = 0xA9 := rfl

/-- One execute step on the all-`LDA_IM` memory, in closed form. -/
lemma execStep_memA9 (cpu : CPU) (c : Nat) (lg : List Nat) :
    CPU.execStep ⟨cpu, memA9, c, lg⟩ =
      ⟨CPU.lda_set_status
          { pc := ((cpu.pc + 1) % 65536 + 1) % 65536, sp := cpu.sp, a := 0xA9,
            x := cpu.x, y := cpu.y, ps := cpu.ps },
        memA9, dec8 (dec8 c 1) 1, lg⟩ := rfl

/-- Invariant of the run from `stateA9`: the memory stays all-`LDA_IM`
and the cycle counter stays odd. -/
lemma loopA9_invariant (n : Nat) :
    (CPU.execute n stateA9).mem = memA9 ∧ (CPU.execute n stateA9).cycles % 2 = 1 := by
  induction n with
  | zero => exact ⟨rfl, rfl⟩
  | succ n ih =>
    rcases ih with ⟨hm, hc⟩
    have hstep : CPU.execute (n + 1) stateA9 = CPU.loopIter (CPU.execute n stateA9) := by
      simp [CPU.execute, Function.iterate_succ_apply']
    set t := CPU.execute n stateA9 with ht
    have hpos : 0 < t.cycles := by omega
    have hiter : CPU.loopIter t = CPU.execStep t := by
      simp [CPU.loopIter, hpos]
    have hT : t = ⟨t.cpu, memA9, t.cycles, t.log⟩ := by rw [← hm]
    rw [hstep, hiter, hT, execStep_memA9]
    refine ⟨rfl, ?_⟩
    simp only [dec8]
    omega

/-- C3 (refutation of universal termination, demonstrating the bug): on
the all-`LDA_IM` memory with initial budget 1, the cycle counter is odd
after every number of loop iterations, so the `while cycles > 0` loop
never observes 0 and never halts. -/
theorem execute_cycles_always_odd (n : Nat) :
    (CPU.execute n stateA9).cycles % 2 = 1 :=
  (loopA9_invariant n).2

end Rusty6502
